import Mathlib

/-!
Verification of the jsonrpc request-dispatch core of this repository.

The development shallowly embeds the Rust sources:
  * `jsonrpc_interface/src/lib.rs` (and the identical binder in
    `jsonrpc/src/lib.rs`): `get_rpc_args`, `InvalidArgs`, the
    `JSONRPCServer` dispatch pipeline `handle_call` / `handle_parsed` /
    `handle_raw`, and the `ToRPCResult` result encoder.
  * `jsonrpcapi/src/lib.rs`: the alternative `get_rpc_args` used by the
    wallet api test module.
  * `jsonrpc_proc_macro/src/lib.rs`: the shape of the generated
    per-method handler closure (drain arguments, call the method,
    serialize the returned value with serde and wrap it in `Ok`).

JSON values are modelled by an inductive `Value`; the serde map type is
modelled as an association list with pairwise distinct keys (the serde map
is a BTreeMap, which cannot hold duplicate keys).  Fallible Rust code
returning `Result<A, E>` is modelled with `Except E A`.
-/

namespace Jsonrpc

/-- Wire values: the JSON data model of `serde_json::Value`.
Numbers are modelled as integers; the dispatch core never inspects the
numeric payload, so this loses nothing relevant. -/
inductive Value where
  | null
  | bool (b : Bool)
  | num (n : Int)
  | str (s : String)
  | arr (elems : List Value)
  | obj (fields : List (String × Value))
deriving Repr

/-- Parameter payload of a call: the `jsonrpc_core::Params` type.
`map` models `serde_json::Map` as an association list. -/
inductive Params where
  | array (elems : List Value)
  | map (entries : List (String × Value))
  | none
deriving Repr

/-- Lookup in the association-list model of `serde_json::Map::get`. -/
def map_get (k : String) : List (String × Value) → Option Value
  | [] => Option.none
  | (k1, v) :: rest => if k1 = k then Option.some v else map_get k rest

/-- Removal in the association-list model of `serde_json::Map::remove`:
returns the removed value and the remaining map, or `none` when the key
is absent. -/
def map_remove (k : String) : List (String × Value) → Option (Value × List (String × Value))
  | [] => Option.none
  | (k1, v) :: rest =>
    if k1 = k then Option.some (v, rest)
    else
      match map_remove k rest with
      | Option.none => Option.none
      | Option.some (v1, rest1) => Option.some (v1, (k1, v) :: rest1)

/-- The keys of an association-list map, in order. -/
def map_keys (m : List (String × Value)) : List String :=
  m.map Prod.fst

/-- The `InvalidArgs` error enum of `jsonrpc_interface` (identical in the
`jsonrpc` crate). -/
inductive InvalidArgs where
  | wrongNumberOfArgs (expected : Nat) (actual : Nat)
  | extraNamedParameter (name : String)
  | missingNamedParameter (name : String)
  | invalidArgStructure (name : String) (index : Nat)
deriving Repr, DecidableEq

/-- The named-parameter loop of `get_rpc_args` in `jsonrpc_interface`
(lines 86-92): for each declared name, in declared order, remove the
entry from the map and push its value; fail with
`MissingNamedParameter` on the first absent name.  Returns the built
sequence together with the leftover map. -/
def get_rpc_args_named_loop :
    List String → List (String × Value) → Except InvalidArgs (List Value × List (String × Value))
  | [], ma => Except.ok ([], ma)
  | name :: rest, ma =>
    match map_remove name ma with
    | Option.none => Except.error (InvalidArgs.missingNamedParameter name)
    | Option.some (v, ma1) =>
      match get_rpc_args_named_loop rest ma1 with
      | Except.error e => Except.error e
      | Except.ok (vs, ma2) => Except.ok (v :: vs, ma2)

/-- The parameter binder `get_rpc_args` of `jsonrpc_interface/src/lib.rs`
lines 82-109 (the copy in the `jsonrpc` crate at lines 38-65 is textually
identical).  Note: the `WrongNumberOfArgs` fields are filled exactly as
in the source, `expected` from `ar.len()` and `actual` from
`names.len()`. -/
def get_rpc_args (names : List String) (params : Params) : Except InvalidArgs (List Value) :=
  let step : Except InvalidArgs (List Value) :=
    match params with
    | Params.array ar => Except.ok ar
    | Params.map ma =>
      match get_rpc_args_named_loop names ma with
      | Except.error e => Except.error e
      | Except.ok (ar, leftover) =>
        match leftover.head? with
        | Option.some kv => Except.error (InvalidArgs.extraNamedParameter kv.1)
        | Option.none => Except.ok ar
    | Params.none => Except.ok []
  match step with
  | Except.error e => Except.error e
  | Except.ok ar =>
    if ar.length ≠ names.length then
      Except.error (InvalidArgs.wrongNumberOfArgs ar.length names.length)
    else
      Except.ok ar

/-- The `InvalidArgs` enum of the `jsonrpcapi` test module: its
`WrongNumberOfArgs` and `ExtraNamedParameter` variants carry no
payload. -/
inductive InvalidArgsApi where
  | wrongNumberOfArgs
  | extraNamedParameter
  | missingNamedParameter (name : String)
  | invalidArgStructure (name : String) (index : Nat)
deriving Repr, DecidableEq

/-- The named-parameter loop of `get_rpc_args` in `jsonrpcapi` (lines
261-269): for each declared name, in declared order, look the value up
(`get` + clone, the map is not mutated); fail with
`MissingNamedParameter` on the first absent name. -/
def api_named_loop :
    List String → List (String × Value) → Except InvalidArgsApi (List Value)
  | [], _ => Except.ok []
  | name :: rest, ma =>
    match map_get name ma with
    | Option.none => Except.error (InvalidArgsApi.missingNamedParameter name)
    | Option.some v =>
      match api_named_loop rest ma with
      | Except.error e => Except.error e
      | Except.ok vs => Except.ok (v :: vs)

/-- The parameter binder `get_rpc_args` of `jsonrpcapi/src/lib.rs` lines
254-278: a named map is first rejected when it has more entries than
declared names, then each declared name is looked up in order. -/
def get_rpc_args_api (names : List String) (params : Params) : Except InvalidArgsApi (List Value) :=
  let step : Except InvalidArgsApi (List Value) :=
    match params with
    | Params.array ar => Except.ok ar
    | Params.map ma =>
      if ma.length > names.length then Except.error InvalidArgsApi.extraNamedParameter
      else api_named_loop names ma
    | Params.none => Except.ok []
  match step with
  | Except.error e => Except.error e
  | Except.ok ar =>
    if ar.length ≠ names.length then
      Except.error InvalidArgsApi.wrongNumberOfArgs
    else
      Except.ok ar

/-- Error codes of `jsonrpc_core::ErrorCode` (external crate, standard
jsonrpc 2.0 codes). -/
inductive ErrorCode where
  | parseError
  | invalidRequest
  | methodNotFound
  | invalidParams
  | internalError
  | serverError (code : Int)
deriving Repr, DecidableEq

/-- The `jsonrpc_core::Error` object: code, message and optional
structured data. -/
structure ErrorObject where
  code : ErrorCode
  message : String
  data : Option Value
deriving Repr

/-- Constructor `jsonrpc_core::Error::invalid_params`. -/
def invalid_params_error (message : String) : ErrorObject :=
  ⟨ErrorCode.invalidParams, message, Option.none⟩

/-- Constructor `jsonrpc_core::Error::invalid_request`. -/
def invalid_request_error : ErrorObject :=
  ⟨ErrorCode.invalidRequest, "Invalid request", Option.none⟩

/-- Constructor `jsonrpc_core::Error::method_not_found`. -/
def method_not_found_error : ErrorObject :=
  ⟨ErrorCode.methodNotFound, "Method not found", Option.none⟩

/-- The `Into<Error> for InvalidArgs` impl of `jsonrpc_interface` lines
118-137: every variant maps to an invalid-params error with a formatted
message. -/
def invalid_args_into_error : InvalidArgs → ErrorObject
  | InvalidArgs.wrongNumberOfArgs e a =>
    invalid_params_error
      ("WrongNumberOfArgs. Expected " ++ toString e ++ ". Actual " ++ toString a)
  | InvalidArgs.extraNamedParameter n =>
    invalid_params_error ("ExtraNamedParameter " ++ n)
  | InvalidArgs.missingNamedParameter n =>
    invalid_params_error ("MissingNamedParameter " ++ n)
  | InvalidArgs.invalidArgStructure n i =>
    invalid_params_error
      ("InvalidArgStructure " ++ n ++ " at position " ++ toString i ++ ".")

/-- The externally tagged serde encoding of a Rust `Result`: `Ok(a)`
serializes to an object with single field Ok, `Err(b)` to an object with
single field Err.  `Except b a` models `Result<a, b>`. -/
def encode_result {A B : Type} (encA : A → Value) (encB : B → Value) : Except B A → Value
  | Except.ok a => Value.obj [("Ok", encA a)]
  | Except.error b => Value.obj [("Err", encB b)]

/-- The `ToRPCResult for Result<A, B>` impl of `jsonrpc_interface` lines
158-169: the success variant encodes to `Ok` of the encoded payload, the
failure variant to a server error (code 8) with message Server error.
and the encoded payload as data.  `encA` and `encB` stand for
`serde_json::to_value` at the two payload types. -/
def to_result {A B : Type} (encA : A → Value) (encB : B → Value) :
    Except B A → Except ErrorObject Value
  | Except.ok k => Except.ok (encA k)
  | Except.error e =>
    Except.error
      ⟨ErrorCode.serverError 8, "Server error.", Option.some (encB e)⟩

/-- Request ids of `jsonrpc_core::Id`: null, a number or a string. -/
inductive Id where
  | null
  | num (n : Int)
  | str (s : String)
deriving Repr, DecidableEq

/-- The protocol version marker of `jsonrpc_core::Version`. -/
inductive Version where
  | v2
deriving Repr, DecidableEq

/-- A `jsonrpc_core::types::Notification`: a call without an id. -/
structure Notification where
  jsonrpc : Option Version
  method : String
  params : Params
deriving Repr

/-- A `jsonrpc_core::types::MethodCall`: a call carrying an id. -/
structure MethodCall where
  jsonrpc : Option Version
  method : String
  params : Params
  id : Id
deriving Repr

/-- A `jsonrpc_core::types::Call`: method call, notification, or a
structurally invalid call retaining only a salvaged id. -/
inductive Call where
  | methodCall (c : MethodCall)
  | notification (n : Notification)
  | invalid (id : Id)
deriving Repr

/-- Whether a call is a notification. -/
def Call.isNotification : Call → Bool
  | Call.notification _ => true
  | _ => false

/-- A success output `jsonrpc_core::types::Success`. -/
structure Success where
  jsonrpc : Option Version
  result : Value
  id : Id
deriving Repr

/-- A failure output `jsonrpc_core::types::Failure`. -/
structure Failure where
  jsonrpc : Option Version
  error : ErrorObject
  id : Id
deriving Repr

/-- An output `jsonrpc_core::types::Output`. -/
inductive Output where
  | success (s : Success)
  | failure (f : Failure)
deriving Repr

/-- A request `jsonrpc_core::types::Request`: single call or batch. -/
inductive Request where
  | single (c : Call)
  | batch (calls : List Call)
deriving Repr

/-- A response `jsonrpc_core::types::Response`: single output or batch. -/
inductive Response where
  | single (o : Output)
  | batch (outputs : List Output)
deriving Repr

/-- The provided method `JSONRPCServer::handle_call` of
`jsonrpc_interface/src/lib.rs` lines 10-42.  The `handle` method of the server
method (the dispatch pipeline) is passed as the function `h`; a
notification invokes it purely for side effects and discards the
result. -/
def handle_call (h : String → Params → Except ErrorObject Value) : Call → Option Output
  | Call.notification n =>
    let _ := h n.method n.params
    Option.none
  | Call.methodCall c =>
    Option.some
      (match h c.method c.params with
       | Except.ok ok => Output.success ⟨c.jsonrpc, ok, c.id⟩
       | Except.error err => Output.failure ⟨c.jsonrpc, err, c.id⟩)
  | Call.invalid id =>
    Option.some (Output.failure ⟨Option.some Version.v2, invalid_request_error, id⟩)

/-- The provided method `JSONRPCServer::handle_parsed` of
`jsonrpc_interface/src/lib.rs` lines 44-59. -/
def handle_parsed (h : String → Params → Except ErrorObject Value) : Request → Option Response
  | Request.single c => (handle_call h c).map Response.single
  | Request.batch calls =>
    let outputs := calls.filterMap (handle_call h)
    if outputs.isEmpty then Option.none else Option.some (Response.batch outputs)

/-- The provided method `JSONRPCServer::handle_raw` of
`jsonrpc_interface/src/lib.rs` lines 62-68.  The serde parser and
serializer are passed as functions: `parse` returns `none` exactly when
`serde_json::from_str` fails, in which case the source substitutes
`Request::Single(Call::Invalid, id Null)`. -/
def handle_raw (parse : String → Option Request) (ser : Response → String)
    (h : String → Params → Except ErrorObject Value) (s : String) : Option String :=
  let request := (parse s).getD (Request.single (Call.invalid Id.null))
  (handle_parsed h request).map ser

/-- The dispatch wrapper installed by `add_rpc_method` of
`jsonrpc/src/lib.rs` lines 14-30: bind the params with `get_rpc_args`,
feed the bound arguments to the generated closure, and convert any
`InvalidArgs` error with the `Into<Error>` impl. -/
def rpc_method_handler (arg_names : List String)
    (cb : List Value → Except InvalidArgs Value) (params : Params) :
    Except ErrorObject Value :=
  match get_rpc_args arg_names params with
  | Except.error e => Except.error (invalid_args_into_error e)
  | Except.ok args =>
    match cb args with
    | Except.error e => Except.error (invalid_args_into_error e)
    | Except.ok v => Except.ok v

/-- The body of the `fail` method of the `Adder` test trait: it returns
`Err` of the string tada with an exclamation mark. -/
def fail_body : Except String Int := Except.error "tada!"

/-- The handler closure generated for `fail` by `add_handler` of
`jsonrpc_proc_macro/src/lib.rs` lines 107-131: no arguments are drained,
the method body is called, and its returned `Result` value is serialized
with `serde_json::to_value` and wrapped in `Ok`. -/
def fail_cb (_args : List Value) : Except InvalidArgs Value :=
  Except.ok (encode_result Value.num Value.str fail_body)

/-- The method registry assembled by `into_iohandler` for the `Adder`
test trait, restricted to the `fail` method; an unknown method yields
the method-not-found error, as `jsonrpc_core::IoHandler` does. -/
def adder_handle (method : String) (params : Params) : Except ErrorObject Value :=
  if method = "fail" then rpc_method_handler [] fail_cb params
  else Except.error method_not_found_error

/-- Well-formedness of a params payload: a named map has pairwise
distinct keys (always true of `serde_json::Map`, which is a BTreeMap). -/
def params_keys_nodup : Params → Prop
  | Params.map m => (map_keys m).Nodup
  | _ => True

/-- The unique output `handle_call` produces for a call that is not a
notification (a method call or an invalid call).  The notification arm
is never used. -/
def non_notification_output (h : String → Params → Except ErrorObject Value) : Call → Output
  | Call.methodCall c =>
    match h c.method c.params with
    | Except.ok ok => Output.success ⟨c.jsonrpc, ok, c.id⟩
    | Except.error err => Output.failure ⟨c.jsonrpc, err, c.id⟩
  | Call.invalid id =>
    Output.failure ⟨Option.some Version.v2, invalid_request_error, id⟩
  | Call.notification _ =>
    Output.failure ⟨Option.none, invalid_request_error, Id.null⟩

/-! Helper lemmas about the association-list map model. -/

lemma map_get_eq_none_iff {k : String} : ∀ {m : List (String × Value)},
    map_get k m = Option.none ↔ k ∉ map_keys m
  | [] => by simp [map_get, map_keys]
  | (k1, v) :: rest => by
    by_cases h : k1 = k
    · subst h
      simp [map_get, map_keys]
    · simp only [map_get, if_neg h, map_keys, List.map_cons, List.mem_cons]
      rw [map_get_eq_none_iff]
      constructor
      · rintro hk (rfl | hk2)
        · exact h rfl
        · exact hk hk2
      · intro hk hk2
        exact hk (Or.inr hk2)

lemma map_get_isSome_iff {k : String} {m : List (String × Value)} :
    (map_get k m).isSome = true ↔ k ∈ map_keys m := by
  rw [Option.isSome_iff_ne_none]
  constructor
  · intro h
    by_contra hk
    exact h (map_get_eq_none_iff.mpr hk)
  · intro h hn
    exact map_get_eq_none_iff.mp hn h

lemma map_remove_eq_none_iff {k : String} : ∀ {m : List (String × Value)},
    map_remove k m = Option.none ↔ map_get k m = Option.none
  | [] => by simp [map_remove, map_get]
  | (k1, v) :: rest => by
    by_cases h : k1 = k
    · simp [map_remove, map_get, if_pos h]
    · simp only [map_remove, map_get, if_neg h]
      rw [← map_remove_eq_none_iff (m := rest)]
      cases map_remove k rest with
      | none => simp
      | some p => simp

lemma map_remove_of_nodup {k : String} {v : Value} : ∀ {m : List (String × Value)},
    (map_keys m).Nodup → map_get k m = Option.some v →
    map_remove k m = Option.some (v, m.filter (fun p => decide (p.1 ≠ k)))
  | [], _, hg => by simp [map_get] at hg
  | (k1, v1) :: rest, hm, hg => by
    have hm2 : (map_keys rest).Nodup := (List.nodup_cons.mp hm).2
    have hk1 : k1 ∉ map_keys rest := (List.nodup_cons.mp hm).1
    by_cases h : k1 = k
    · subst h
      simp [map_get] at hg
      subst hg
      have hrest : List.filter (fun p => !decide (p.1 = k1)) rest = rest := by
        apply List.filter_eq_self.mpr
        intro p hp
        simp only [Bool.not_eq_true', decide_eq_false_iff_not]
        intro hpk
        exact hk1 (hpk ▸ List.mem_map_of_mem Prod.fst hp)
      simp [map_remove, List.filter_cons, hrest]
    · simp only [map_get, if_neg h] at hg
      have := map_remove_of_nodup hm2 hg
      simp [map_remove, if_neg h, this, List.filter_cons, h]

lemma map_get_filter {pred : String × Value → Bool} {k1 : String}
    (hpred : ∀ v, pred (k1, v) = true) : ∀ {m : List (String × Value)},
    map_get k1 (m.filter pred) = map_get k1 m
  | [] => by simp [map_get]
  | (k2, v2) :: rest => by
    by_cases h2 : k2 = k1
    · subst h2
      rw [List.filter_cons, hpred v2]
      simp [map_get]
    · rw [List.filter_cons]
      cases hp : pred (k2, v2) with
      | true => simp [map_get, if_neg h2, map_get_filter hpred (m := rest)]
      | false => simp [map_get, if_neg h2, map_get_filter hpred (m := rest)]

lemma map_get_filter_ne {k k1 : String} (h : k1 ≠ k) {m : List (String × Value)} :
    map_get k1 (m.filter (fun p => decide (p.1 ≠ k))) = map_get k1 m :=
  map_get_filter (fun _ => by simp [h])

lemma keys_filter_nodup {m : List (String × Value)} (hm : (map_keys m).Nodup)
    (p : String × Value → Bool) : (map_keys (m.filter p)).Nodup := by
  apply hm.sublist
  exact (List.filter_sublist m).map Prod.fst

lemma find_congr_helper {α : Type} {p q : α → Bool} : ∀ {l : List α},
    (∀ a ∈ l, p a = q a) → l.find? p = l.find? q
  | [], _ => rfl
  | a :: rest, h => by
    have ha : p a = q a := h a (List.mem_cons_self a rest)
    have hrest := find_congr_helper (l := rest) (fun x hx => h x (List.mem_cons_of_mem a hx))
    cases hq : q a with
    | true => simp [List.find?, ha, hq]
    | false => simp [List.find?, ha, hq, hrest]

/-! Characterization of the two named-parameter loops. -/

lemma named_loop_eq : ∀ (names : List String) (m : List (String × Value)),
    names.Nodup → (map_keys m).Nodup →
    get_rpc_args_named_loop names m =
      match names.find? (fun x => (map_get x m).isNone) with
      | Option.some n => Except.error (InvalidArgs.missingNamedParameter n)
      | Option.none =>
        Except.ok (names.map (fun x => (map_get x m).getD Value.null),
          m.filter (fun p => decide (p.1 ∉ names)))
  | [], m, _, _ => by
    simp only [get_rpc_args_named_loop, List.find?, List.map_nil]
    have : m.filter (fun p => decide (p.1 ∉ ([] : List String))) = m := by
      apply List.filter_eq_self.mpr
      intro p _
      simp
    rw [this]
  | n :: rest, m, hn, hm => by
    have hn1 : n ∉ rest := (List.nodup_cons.mp hn).1
    have hn2 : rest.Nodup := (List.nodup_cons.mp hn).2
    cases hg : map_get n m with
    | none =>
      have hr : map_remove n m = Option.none := map_remove_eq_none_iff.mpr hg
      simp [get_rpc_args_named_loop, hr, List.find?, hg]
    | some v =>
      have hr := map_remove_of_nodup hm hg
      have hm1 : (map_keys (m.filter (fun p => decide (p.1 ≠ n)))).Nodup :=
        keys_filter_nodup hm _
      have hget : ∀ x ∈ rest, map_get x (m.filter (fun p => decide (p.1 ≠ n))) = map_get x m :=
        fun x hx => map_get_filter_ne (fun e => hn1 (by rw [← e]; exact hx))
      have IH := named_loop_eq rest (m.filter (fun p => decide (p.1 ≠ n))) hn2 hm1
      have hfind : rest.find? (fun x => (map_get x (m.filter (fun p => decide (p.1 ≠ n)))).isNone)
          = rest.find? (fun x => (map_get x m).isNone) :=
        find_congr_helper (fun x hx => by rw [hget x hx])
      have hmap : rest.map (fun x => (map_get x (m.filter (fun p => decide (p.1 ≠ n)))).getD Value.null)
          = rest.map (fun x => (map_get x m).getD Value.null) :=
        List.map_congr_left (fun x hx => by rw [hget x hx])
      have hfilter : (m.filter (fun p => decide (p.1 ≠ n))).filter (fun p => decide (p.1 ∉ rest))
          = m.filter (fun p => decide (p.1 ∉ n :: rest)) := by
        rw [List.filter_filter]
        apply List.filter_congr
        intro p _
        simp only [List.mem_cons, decide_not, Bool.and_comm]
        cases hpn : decide (p.1 = n) with
        | true =>
          simp only [decide_eq_true_eq] at hpn
          simp [hpn]
        | false =>
          simp only [decide_eq_false_iff_not] at hpn
          simp [hpn]
      have hfn : (map_get n m).isNone = false := by rw [hg]; rfl
      rw [get_rpc_args_named_loop, hr]
      simp only [IH, hfind, hmap, hfilter, List.find?, hfn, List.map_cons, hg]
      cases hf : rest.find? (fun x => (map_get x m).isNone) with
      | none => simp [Option.getD]
      | some n1 => simp

lemma named_loop_length : ∀ (names : List String) (m : List (String × Value))
    {vs : List Value} {leftover : List (String × Value)},
    get_rpc_args_named_loop names m = Except.ok (vs, leftover) → vs.length = names.length
  | [], _, vs, leftover => by
    simp only [get_rpc_args_named_loop, Except.ok.injEq, Prod.mk.injEq]
    rintro ⟨rfl, rfl⟩
    rfl
  | n :: rest, m, vs, leftover => by
    cases hr : map_remove n m with
    | none => simp [get_rpc_args_named_loop, hr]
    | some p =>
      cases hloop : get_rpc_args_named_loop rest p.2 with
      | error e => simp [get_rpc_args_named_loop, hr, hloop]
      | ok q =>
        obtain ⟨q1, q2⟩ := q
        have IH := named_loop_length rest p.2 hloop
        simp only [get_rpc_args_named_loop, hr, hloop, Except.ok.injEq, Prod.mk.injEq]
        rintro ⟨rfl, rfl⟩
        simp only [List.length_cons, IH]

lemma named_loop_error : ∀ (names : List String) (m : List (String × Value)) {e : InvalidArgs},
    get_rpc_args_named_loop names m = Except.error e → ∃ n, e = InvalidArgs.missingNamedParameter n
  | [], _, e => by simp [get_rpc_args_named_loop]
  | n :: rest, m, e => by
    cases hr : map_remove n m with
    | none =>
      simp only [get_rpc_args_named_loop, hr, Except.error.injEq]
      rintro rfl
      exact ⟨n, rfl⟩
    | some p =>
      cases hloop : get_rpc_args_named_loop rest p.2 with
      | error e1 =>
        have IH := named_loop_error rest p.2 (e := e1) hloop
        simp only [get_rpc_args_named_loop, hr, hloop, Except.error.injEq]
        rintro rfl
        exact IH
      | ok q => simp [get_rpc_args_named_loop, hr, hloop]

lemma api_named_loop_eq : ∀ (names : List String) (m : List (String × Value)),
    api_named_loop names m =
      match names.find? (fun x => (map_get x m).isNone) with
      | Option.some n => Except.error (InvalidArgsApi.missingNamedParameter n)
      | Option.none => Except.ok (names.map (fun x => (map_get x m).getD Value.null))
  | [], m => by simp [api_named_loop, List.find?]
  | n :: rest, m => by
    cases hg : map_get n m with
    | none => simp [api_named_loop, hg, List.find?]
    | some v =>
      have IH := api_named_loop_eq rest m
      have hfn : (map_get n m).isNone = false := by rw [hg]; rfl
      rw [api_named_loop, hg]
      simp only [IH, List.find?, hfn, List.map_cons, hg]
      cases hf : rest.find? (fun x => (map_get x m).isNone) with
      | none => simp [Option.getD]
      | some n1 => simp

lemma api_named_loop_length : ∀ (names : List String) (m : List (String × Value))
    {vs : List Value},
    api_named_loop names m = Except.ok vs → vs.length = names.length
  | [], _, vs => by
    simp only [api_named_loop, Except.ok.injEq]
    rintro rfl
    rfl
  | n :: rest, m, vs => by
    cases hg : map_get n m with
    | none => simp [api_named_loop, hg]
    | some v =>
      cases hloop : api_named_loop rest m with
      | error e => simp [api_named_loop, hg, hloop]
      | ok q =>
        have IH := api_named_loop_length rest m hloop
        simp only [api_named_loop, hg, hloop, Except.ok.injEq]
        rintro rfl
        simp only [List.length_cons, IH]

/-! Characterization of the two whole binders on named-map payloads. -/

lemma get_rpc_args_map_eq (names : List String) (m : List (String × Value))
    (hn : names.Nodup) (hm : (map_keys m).Nodup) :
    get_rpc_args names (Params.map m) =
      match names.find? (fun x => (map_get x m).isNone) with
      | Option.some n => Except.error (InvalidArgs.missingNamedParameter n)
      | Option.none =>
        match (m.filter (fun p => decide (p.1 ∉ names))).head? with
        | Option.some kv => Except.error (InvalidArgs.extraNamedParameter kv.1)
        | Option.none =>
          Except.ok (names.map (fun x => (map_get x m).getD Value.null))
  := by
  have hloop := named_loop_eq names m hn hm
  rw [get_rpc_args]
  simp only [hloop]
  cases hf : names.find? (fun x => (map_get x m).isNone) with
  | some n => simp
  | none =>
    simp only []
    cases hh : (m.filter (fun p => decide (p.1 ∉ names))).head? with
    | some kv => simp
    | none =>
      have hlen : (names.map (fun x => (map_get x m).getD Value.null)).length = names.length :=
        List.length_map names _
      simp [hlen]

lemma get_rpc_args_api_map_eq (names : List String) (m : List (String × Value)) :
    get_rpc_args_api names (Params.map m) =
      if m.length > names.length then Except.error InvalidArgsApi.extraNamedParameter
      else
        match names.find? (fun x => (map_get x m).isNone) with
        | Option.some n => Except.error (InvalidArgsApi.missingNamedParameter n)
        | Option.none =>
          Except.ok (names.map (fun x => (map_get x m).getD Value.null))
  := by
  have hloop := api_named_loop_eq names m
  rw [get_rpc_args_api]
  by_cases hlen : m.length > names.length
  · simp [hlen]
  · simp only [hlen, if_false, hloop]
    cases hf : names.find? (fun x => (map_get x m).isNone) with
    | some n => simp
    | none =>
      have hl : (names.map (fun x => (map_get x m).getD Value.null)).length = names.length :=
        List.length_map names _
      simp [hl]

/-! Claim theorems. -/

/-- C1: the claim states that a Positional payload of mismatched length
fails with WrongNumberOfArgs whose expected field equals
declared_names.len() and whose actual field equals the payload length.
The code fills the fields the other way around: it writes `expected:
ar.len()` (the payload length) and `actual: names.len()` (the declared
count), contradicting the meaning its own field names document.  This
theorem records the actual behavior of the code: for every mismatched
positional payload the reported error is
`wrongNumberOfArgs payload.length names.length`, and at the failing
input (one declared name, empty payload) that value differs from the
claimed `wrongNumberOfArgs 1 0`. -/
theorem claim_C1_wrong_number_fields_swapped :
    (∀ (names : List String) (vs : List Value), vs.length ≠ names.length →
      get_rpc_args names (Params.array vs) =
        Except.error (InvalidArgs.wrongNumberOfArgs vs.length names.length)) ∧
    get_rpc_args ["a"] (Params.array []) =
      Except.error (InvalidArgs.wrongNumberOfArgs 0 1) ∧
    InvalidArgs.wrongNumberOfArgs 0 1 ≠ InvalidArgs.wrongNumberOfArgs 1 0 := by
  refine ⟨?_, rfl, by simp⟩
  intro names vs h
  simp [get_rpc_args, h]

/-- Witness for C1: the general statement applied at one declared name
and an empty positional payload. -/
theorem claim_C1_wrong_number_fields_swapped_witness :
    get_rpc_args ["a"] (Params.array []) =
      Except.error (InvalidArgs.wrongNumberOfArgs 0 1) :=
  claim_C1_wrong_number_fields_swapped.1 ["a"] [] (by decide)

/-- C2: `to_result` on a two-variant result maps the success variant to
`Ok` of the encoded success payload and the failure variant to `Err` of
an error object with the fixed server-error code 8, the message Server
error., and `Some` of the encoded failure payload. -/
theorem claim_C2_to_result_encoding {A B : Type} (encA : A → Value) (encB : B → Value)
    (a : A) (b : B) :
    to_result encA encB (Except.ok a) = Except.ok (encA a) ∧
    to_result encA encB (Except.error b) =
      Except.error ⟨ErrorCode.serverError 8, "Server error.", Option.some (encB b)⟩ :=
  ⟨rfl, rfl⟩

/-- C3: a method call to the registered `fail` procedure (whose body
returns the failure-result value carrying the string tada with an
exclamation mark) with valid params and an id produces a protocol-level
Success output whose result field is the wire object with the single
field Err mapped to that string: the generated dispatch path serializes
the Result variant tag directly into the success result field. -/
theorem claim_C3_fail_serialized_into_success_result :
    handle_call adder_handle
        (Call.methodCall ⟨Option.some Version.v2, "fail", Params.array [], Id.num 1⟩) =
      Option.some (Output.success
        ⟨Option.some Version.v2, Value.obj [("Err", Value.str "tada!")], Id.num 1⟩) :=
  rfl

/-- C4: `handle_call` on any notification returns none, whatever the
method name, the params payload, and whatever the dispatch pipeline `h`
does (unknown method, binding failure, decode failure and handler
failure are all particular choices of `h`). -/
theorem claim_C4_notification_never_outputs
    (h : String → Params → Except ErrorObject Value)
    (jsonrpc : Option Version) (method : String) (params : Params) :
    handle_call h (Call.notification ⟨jsonrpc, method, params⟩) = Option.none :=
  rfl

/-- C5: `handle_parsed` on a batch collects exactly the outputs
`handle_call` produces, in order; an empty collected sequence yields no
response, a non-empty one yields a batch response.  The collected
sequence is the image of the non-notification calls, in input order. -/
theorem claim_C5_batch_order_and_empty
    (h : String → Params → Except ErrorObject Value) (calls : List Call) :
    handle_parsed h (Request.batch calls) =
      (if (calls.filterMap (handle_call h)).isEmpty then Option.none
       else Option.some (Response.batch (calls.filterMap (handle_call h)))) ∧
    calls.filterMap (handle_call h) =
      (calls.filter (fun c => !c.isNotification)).map (non_notification_output h) := by
  refine ⟨rfl, ?_⟩
  induction calls with
  | nil => rfl
  | cons c rest ih =>
    cases c with
    | notification n =>
      simp [List.filterMap_cons, handle_call, Call.isNotification, List.filter_cons, ih]
    | methodCall mc =>
      simp [List.filterMap_cons, handle_call, Call.isNotification, List.filter_cons,
        non_notification_output, ih]
    | invalid id =>
      simp [List.filterMap_cons, handle_call, Call.isNotification, List.filter_cons,
        non_notification_output, ih]

/-- C6: when parsing fails, `handle_raw` behaves as on
`Request::Single(Call::Invalid, null id)` and returns exactly the
serialization of a single Failure output carrying the invalid-request
error and the null id; and `handle_call` on any Invalid call immediately
produces that Failure without dispatching. -/
theorem claim_C6_parse_failure_invalid_request
    (parse : String → Option Request) (ser : Response → String)
    (h : String → Params → Except ErrorObject Value) (s : String)
    (hp : parse s = Option.none) :
    handle_raw parse ser h s =
      Option.some (ser (Response.single (Output.failure
        ⟨Option.some Version.v2, invalid_request_error, Id.null⟩))) ∧
    (∀ (h2 : String → Params → Except ErrorObject Value) (id : Id),
      handle_call h2 (Call.invalid id) =
        Option.some (Output.failure
          ⟨Option.some Version.v2, invalid_request_error, id⟩)) := by
  constructor
  · rw [handle_raw, hp]
    rfl
  · intro h2 id
    rfl

/-- Witness for C6: a parser that always fails, a constant serializer,
and a trivial pipeline. -/
theorem claim_C6_parse_failure_invalid_request_witness :
    handle_raw (fun _ => Option.none) (fun _ => "out")
      (fun _ _ => Except.ok Value.null) "bad input" = Option.some "out" :=
  ((claim_C6_parse_failure_invalid_request (fun _ => Option.none) (fun _ => "out")
    (fun _ _ => Except.ok Value.null) "bad input" rfl).1).trans rfl

/-- C8: for every declared-names list, the Absent payload binds exactly
like an empty Positional payload: the same result on all inputs, namely
success with the empty sequence when no names are declared and a
WrongNumberOfArgs failure otherwise. -/
theorem claim_C8_absent_equals_empty_positional (names : List String) :
    get_rpc_args names Params.none = get_rpc_args names (Params.array []) ∧
    get_rpc_args names Params.none =
      (if names.isEmpty then Except.ok []
       else Except.error (InvalidArgs.wrongNumberOfArgs 0 names.length)) := by
  refine ⟨rfl, ?_⟩
  cases names with
  | nil => rfl
  | cons n rest => simp [get_rpc_args]

/-- C7: named-payload binding with pairwise distinct declared names and
a well-formed map.  If some declared name is absent, the binder fails
with MissingNamedParameter for the first missing name in declared order
(`find?` order); if all declared names are present but leftover keys
remain, it fails with ExtraNamedParameter for some leftover key; if the
keys are exactly the declared names, it succeeds with the values of the
declared names, in declared order (in particular with exactly
`names.length` values). -/
theorem claim_C7_named_binding (names : List String) (m : List (String × Value))
    (hn : names.Nodup) (hm : (map_keys m).Nodup) :
    (∀ n, names.find? (fun x => (map_get x m).isNone) = Option.some n →
      get_rpc_args names (Params.map m) =
        Except.error (InvalidArgs.missingNamedParameter n)) ∧
    ((∀ x ∈ names, x ∈ map_keys m) → (∃ k ∈ map_keys m, k ∉ names) →
      ∃ k, k ∈ map_keys m ∧ k ∉ names ∧
        get_rpc_args names (Params.map m) =
          Except.error (InvalidArgs.extraNamedParameter k)) ∧
    ((∀ x ∈ names, x ∈ map_keys m) → (∀ k ∈ map_keys m, k ∈ names) →
      get_rpc_args names (Params.map m) =
        Except.ok (names.map (fun x => (map_get x m).getD Value.null))) := by
  have hchar := get_rpc_args_map_eq names m hn hm
  refine ⟨?_, ?_, ?_⟩
  · intro n hf
    rw [hchar, hf]
  · intro hpres hextra
    have hf : names.find? (fun x => (map_get x m).isNone) = Option.none := by
      apply List.find?_eq_none.mpr
      intro x hx
      have := map_get_isSome_iff.mpr (hpres x hx)
      simp [Option.isNone_iff_eq_none]
      exact Option.isSome_iff_ne_none.mp this
    obtain ⟨k, hk, hknot⟩ := hextra
    have hne : m.filter (fun p => decide (p.1 ∉ names)) ≠ [] := by
      intro hnil
      have hall := List.filter_eq_nil_iff.mp hnil
      obtain ⟨p, hpm, hpk⟩ := List.mem_map.mp hk
      have := hall p hpm
      simp only [decide_eq_true_eq] at this
      exact this (hpk ▸ hknot)
    cases hfil : (m.filter (fun p => decide (p.1 ∉ names))) with
    | nil => exact absurd hfil hne
    | cons kv tail =>
      have hkvmem : kv ∈ m.filter (fun p => decide (p.1 ∉ names)) := by
        rw [hfil]
        exact List.mem_cons_self kv tail
      have hkv1 : kv.1 ∉ names := by
        have := List.of_mem_filter hkvmem
        simpa using this
      have hkv2 : kv.1 ∈ map_keys m :=
        List.mem_map_of_mem Prod.fst (List.mem_of_mem_filter hkvmem)
      refine ⟨kv.1, hkv2, hkv1, ?_⟩
      rw [hchar, hf]
      rw [hfil]
      rfl
  · intro hpres hsub
    have hf : names.find? (fun x => (map_get x m).isNone) = Option.none := by
      apply List.find?_eq_none.mpr
      intro x hx
      have := map_get_isSome_iff.mpr (hpres x hx)
      simp [Option.isNone_iff_eq_none]
      exact Option.isSome_iff_ne_none.mp this
    have hnil : m.filter (fun p => decide (p.1 ∉ names)) = [] := by
      apply List.filter_eq_nil_iff.mpr
      intro p hpm
      simp only [decide_eq_true_eq, Decidable.not_not]
      exact hsub p.1 (List.mem_map_of_mem Prod.fst hpm)
    rw [hchar, hf]
    rw [hnil]
    rfl

/-- Witness for C7: the three cases at concrete inputs, using the
declared-name list with entries a and b against a map missing a, a map
with the extra key z, and a map matching exactly. -/
theorem claim_C7_named_binding_witness :
    get_rpc_args ["a", "b"] (Params.map [("b", Value.null)]) =
      Except.error (InvalidArgs.missingNamedParameter "a") ∧
    (∃ k, k ∈ map_keys [("a", Value.null), ("z", Value.bool true)] ∧ k ∉ ["a"] ∧
      get_rpc_args ["a"] (Params.map [("a", Value.null), ("z", Value.bool true)]) =
        Except.error (InvalidArgs.extraNamedParameter k)) ∧
    get_rpc_args ["a"] (Params.map [("a", Value.bool true)]) =
      Except.ok [Value.bool true] := by
  refine ⟨?_, ?_, ?_⟩
  · exact (claim_C7_named_binding ["a", "b"] [("b", Value.null)]
      (by decide) (by decide)).1 "a" rfl
  · exact (claim_C7_named_binding ["a"] [("a", Value.null), ("z", Value.bool true)]
      (by decide) (by decide)).2.1 (by decide) ⟨"z", by decide, by decide⟩
  · exact ((claim_C7_named_binding ["a"] [("a", Value.bool true)]
      (by decide) (by decide)).2.2 (by decide) (by decide)).trans rfl

/-- C10: a named payload, well formed or not, never produces the
WrongNumberOfArgs error: the sequence built by the naming loop always
has exactly one value per declared name (so the debug assertion and the
final arity check always pass), and every failure is either
MissingNamedParameter or ExtraNamedParameter. -/
theorem claim_C10_named_never_wrong_number (names : List String)
    (m : List (String × Value)) :
    (match get_rpc_args_named_loop names m with
     | Except.ok (vs, _) => vs.length = names.length
     | Except.error _ => True) ∧
    (match get_rpc_args names (Params.map m) with
     | Except.ok vs => vs.length = names.length
     | Except.error (InvalidArgs.missingNamedParameter _) => True
     | Except.error (InvalidArgs.extraNamedParameter _) => True
     | Except.error _ => False) := by
  constructor
  · cases hl : get_rpc_args_named_loop names m with
    | ok p =>
      obtain ⟨vs, lo⟩ := p
      exact named_loop_length names m hl
    | error e => trivial
  · rw [get_rpc_args]
    cases hl : get_rpc_args_named_loop names m with
    | error e =>
      obtain ⟨n, rfl⟩ := named_loop_error names m hl
      simp
    | ok p =>
      obtain ⟨vs, lo⟩ := p
      have hlen := named_loop_length names m hl
      cases hh : lo.head? with
      | some kv => simp [hh]
      | none => simp [hh, hlen]

lemma filter_nil_iff_length_le {names : List String} {m : List (String × Value)}
    (hn : names.Nodup) (hm : (map_keys m).Nodup)
    (hpres : ∀ x ∈ names, x ∈ map_keys m) :
    m.filter (fun p => decide (p.1 ∉ names)) = [] ↔ m.length ≤ names.length := by
  constructor
  · intro hnil
    have hsub : map_keys m ⊆ names := by
      intro k hk
      obtain ⟨p, hpm, hpk⟩ := List.mem_map.mp hk
      have := List.filter_eq_nil_iff.mp hnil p hpm
      simp only [decide_eq_true_eq, Decidable.not_not] at this
      exact hpk ▸ this
    have := (hm.subperm hsub).length_le
    rw [map_keys, List.length_map] at this
    exact this
  · intro hle
    have hsup : names ⊆ map_keys m := fun x hx => hpres x hx
    have hsp := hn.subperm hsup
    have hkeyslen : (map_keys m).length ≤ names.length := by
      rw [map_keys, List.length_map]
      exact hle
    have hperm := hsp.perm_of_length_le hkeyslen
    have hsub : map_keys m ⊆ names := hperm.symm.subset
    apply List.filter_eq_nil_iff.mpr
    intro p hpm
    simp only [decide_eq_true_eq, Decidable.not_not]
    exact hsub (List.mem_map_of_mem Prod.fst hpm)

/-- C9: on any well-formed input (pairwise distinct declared names,
well-formed map payload), the `jsonrpc_interface` binder and the
`jsonrpcapi` binder succeed on exactly the same inputs, and when they
succeed they return the identical ordered value sequence. -/
theorem claim_C9_binders_agree_on_success (names : List String) (params : Params)
    (hn : names.Nodup) (hp : params_keys_nodup params) (vs : List Value) :
    get_rpc_args names params = Except.ok vs ↔
      get_rpc_args_api names params = Except.ok vs := by
  cases params with
  | array ar =>
    by_cases hl : ar.length = names.length
    · simp [get_rpc_args, get_rpc_args_api, hl]
    · simp [get_rpc_args, get_rpc_args_api, hl]
  | none =>
    cases names with
    | nil => simp [get_rpc_args, get_rpc_args_api]
    | cons n rest => simp [get_rpc_args, get_rpc_args_api]
  | map m =>
    have hm : (map_keys m).Nodup := hp
    rw [get_rpc_args_map_eq names m hn hm, get_rpc_args_api_map_eq names m]
    cases hf : names.find? (fun x => (map_get x m).isNone) with
    | some n =>
      by_cases hlen : m.length > names.length
      · simp [hlen]
      · simp [hlen]
    | none =>
      have hpres : ∀ x ∈ names, x ∈ map_keys m := by
        intro x hx
        rw [← map_get_isSome_iff]
        have hnone := List.find?_eq_none.mp hf x hx
        cases hg : map_get x m with
        | none => exact absurd (by rw [hg]; rfl) hnone
        | some v => rfl
      by_cases hle : m.length ≤ names.length
      · have hnil := (filter_nil_iff_length_le hn hm hpres).mpr hle
        rw [hnil]
        have hgt : ¬ (m.length > names.length) := not_lt.mpr hle
        simp [hgt]
      · have hgt : m.length > names.length := lt_of_not_ge hle
        have hne : m.filter (fun p => decide (p.1 ∉ names)) ≠ [] := by
          intro hnil
          exact hle ((filter_nil_iff_length_le hn hm hpres).mp hnil)
        cases hfil : m.filter (fun p => decide (p.1 ∉ names)) with
        | nil => exact absurd hfil hne
        | cons kv tail =>
          simp [hgt]

/-- Witness for C9: both binders succeed and agree at one declared name
bound from a one-entry named map. -/
theorem claim_C9_binders_agree_on_success_witness :
    get_rpc_args_api ["a"] (Params.map [("a", Value.bool true)]) =
      Except.ok [Value.bool true] :=
  (claim_C9_binders_agree_on_success ["a"] (Params.map [("a", Value.bool true)])
    (by decide) ((by decide : (map_keys [("a", Value.bool true)]).Nodup))
    [Value.bool true]).mp rfl

end Jsonrpc
